import Mathlib

/-!
Verification of the Technology Selector evaluation app
(`src/complete_app.py`) against its specification.

The app keeps mutable Python dicts in Streamlit session state.  Because one
claim (deep-copy isolation of stored records) is about Python object
aliasing, the embedding models the inner per-technology dicts as
heap-allocated cells: `heap : Nat → InnerDict` maps an address to the dict
stored there, and both the live grid (`current_selections`) and every
stored record hold *addresses*, exactly as Python dicts hold references.
`dict.copy()` (line 136) copies the outer key→reference mapping only, so a
record's `selections` is the same address list as the grid at submission
time.  The post-submit reset (lines 144-147) rebinds the grid to freshly
allocated cells.
-/

namespace TechSelector

/-- A Python inner dict `{criterion: bool}`, as an insertion-ordered
association list (Python dicts preserve insertion order). -/
abbrev InnerDict := List (String × Bool)

/-- Line 30: the fixed technology options. -/
def TECHNOLOGIES : List String :=
  ["Tech A", "Tech B", "Tech C", "Tech D", "Tech E"]

/-- Line 31: the fixed criteria. -/
def CRITERIA : List String :=
  ["Criteria 1", "Criteria 2", "Criteria 3", "Criteria 4", "Criteria 5"]

/-- An evaluation record (lines 133-138).  `selections` holds the
*addresses* of the five inner dicts, as the Python dict holds references. -/
structure PyRecord where
  evaluator_name : String
  timestamp : String
  selections : List (String × Nat)
  comments : String
deriving DecidableEq, Repr

/-- The Streamlit session state (lines 34-44) plus the two text widgets.
`heap`/`nextAddr` are the allocation model for Python's inner dicts;
`current_selections` maps each technology to the address of its live inner
dict; `evaluator_input` and `comments_area` are the widget values read by
the submit handler; `current_comment` is the session key written (only) by
the post-submit reset (line 148). -/
structure PyState where
  heap : Nat → InnerDict
  nextAddr : Nat
  current_selections : List (String × Nat)
  evaluations : List PyRecord
  evaluator_input : String
  comments_area : String
  current_comment : String

/-- Python `str.strip()` with no argument: remove whitespace from both
ends.  Modelled on the underlying character list. -/
def pyStrip (str : String) : String :=
  String.mk
    (((str.data.dropWhile Char.isWhitespace).reverse.dropWhile
      Char.isWhitespace).reverse)

/-- A fresh inner dict `{criterion: False for criterion in CRITERIA}`. -/
def freshRow : InnerDict := CRITERIA.map (fun c => (c, false))

/-- Allocate one fresh all-false inner dict per technology:
`{tech: {criterion: False for criterion in CRITERIA} for tech in TECHNOLOGIES}`
(lines 41 and 144-147).  Returns the extended heap, the next free address,
and the outer dict mapping each technology to its new cell's address. -/
def allocCells : List String → (Nat → InnerDict) → Nat →
    (Nat → InnerDict) × Nat × List (String × Nat)
  | [], h, n => (h, n, [])
  | t :: ts, h, n =>
    let h1 : Nat → InnerDict := fun a => if a = n then freshRow else h a
    let r := allocCells ts h1 (n + 1)
    (r.1, r.2.1, (t, n) :: r.2.2)

/-- Python dict assignment `d[k] = b`: update in place if the key is
present (keeping its position), else append the new binding. -/
def dictSet (d : InnerDict) (k : String) (b : Bool) : InnerDict :=
  if d.any (fun p => p.1 = k) then d.map (fun p => if p.1 = k then (k, b) else p)
  else d ++ [(k, b)]

/-- One grid-cell write
`st.session_state.current_selections[tech][criterion] = v` (line 107):
mutate, through the live grid's reference, the inner dict on the heap.
The grid always holds every technology, so the lookup never fails; a
missing key is modelled as a no-op (Python would raise KeyError, which
also mutates nothing). -/
def toggle (s : PyState) (tech crit : String) (b : Bool) : PyState :=
  match s.current_selections.lookup tech with
  | none => s
  | some a =>
    { s with heap := fun a2 => if a2 = a then dictSet (s.heap a) crit b else s.heap a2 }

/-- The submit-button handler (lines 128-151).  A blank (after `strip()`)
evaluator name only shows an error: no state changes.  Otherwise build the
record — `selections` is `current_selections.copy()`, a shallow copy: the
*same addresses* — append it, rebind the grid to freshly allocated
all-false cells, and write `""` to session key `current_comment`.  Note
the widget value `comments_area` is *not* touched. -/
def submitClick (s : PyState) (now : String) : PyState :=
  if pyStrip s.evaluator_input = "" then s
  else
    let record : PyRecord :=
      { evaluator_name := pyStrip s.evaluator_input
        timestamp := now
        selections := s.current_selections
        comments := pyStrip s.comments_area }
    let r := allocCells TECHNOLOGIES s.heap s.nextAddr
    { s with
      evaluations := s.evaluations ++ [record]
      heap := r.1
      nextAddr := r.2.1
      current_selections := r.2.2
      current_comment := "" }

/-- The user-visible events of one session: editing a grid cell, clicking
submit (with the wall-clock timestamp string the handler would read),
typing in the comment box, typing in the name box. -/
inductive Op where
  | toggle (tech crit : String) (b : Bool)
  | submit (now : String)
  | setComment (c : String)
  | setName (n : String)
deriving DecidableEq, Repr

def step (s : PyState) : Op → PyState
  | .toggle t c b => toggle s t c b
  | .submit now => submitClick s now
  | .setComment c => { s with comments_area := c }
  | .setName n => { s with evaluator_input := n }

def run (s : PyState) : List Op → PyState
  | [] => s
  | op :: ops => run (step s op) ops

/-- Session start (lines 34-44): empty store, all-false grid, empty
comment, empty name. -/
def initState : PyState :=
  let r := allocCells TECHNOLOGIES (fun _ => []) 0
  { heap := r.1
    nextAddr := r.2.1
    current_selections := r.2.2
    evaluations := []
    evaluator_input := ""
    comments_area := ""
    current_comment := "" }

/-- Dereference an outer dict: the matrix a Python reader would see. -/
def readSel (h : Nat → InnerDict) (sel : List (String × Nat)) :
    List (String × InnerDict) :=
  sel.map (fun p => (p.1, h p.2))

/-- Read one live grid cell `current_selections[tech][crit]`. -/
def gridGet (s : PyState) (tech crit : String) : Bool :=
  match s.current_selections.lookup tech with
  | none => false
  | some a => ((s.heap a).lookup crit).getD false

/-- Read one cell of a stored record, `rec["selections"][tech][crit]`. -/
def recGet (s : PyState) (r : PyRecord) (tech crit : String) : Bool :=
  match r.selections.lookup tech with
  | none => false
  | some a => ((s.heap a).lookup crit).getD false

/-- A stored record's inner dict for one technology. -/
def recRow (s : PyState) (r : PyRecord) (tech : String) : InnerDict :=
  match r.selections.lookup tech with
  | none => []
  | some a => s.heap a

/-- Line 167-170: `sum(1 for eval in evaluations if eval["selections"][tech][criterion])`. -/
def countSel (s : PyState) (tech crit : String) : Nat :=
  (s.evaluations.filter (fun r => recGet s r tech crit)).length

/-- Lines 162-173: per-technology score lists.  The inner loop runs over
`CRITERIA`, appending `(count / len(evaluations)) * 100` to the
technology's list, so each technology's list is in the fixed criteria
order.  Python float division is modelled exactly in `ℚ`. -/
def tech_scores (s : PyState) : List (String × List ℚ) :=
  TECHNOLOGIES.map (fun tech =>
    (tech, CRITERIA.map (fun crit =>
      ((countSel s tech crit : ℚ) / (s.evaluations.length : ℚ)) * 100)))

/-- One row of the summary table (lines 229-240). -/
structure SummaryRow where
  evaluator : String
  timestamp : String
  comments : String
  selected : String
deriving DecidableEq, Repr

/-- Lines 235-238: technologies with at least one selected criterion,
`any(eval["selections"][tech].values())`. -/
def selected_techs (s : PyState) (r : PyRecord) : List String :=
  TECHNOLOGIES.filter (fun tech => (recRow s r tech).any (fun p => p.2))

/-- Lines 229-240: one display row, with the `"(no comments)"` and
`"(none selected)"` placeholders for falsy (empty) values. -/
def summaryRow (s : PyState) (r : PyRecord) : SummaryRow :=
  { evaluator := r.evaluator_name
    timestamp := r.timestamp
    comments := if r.comments ≠ "" then r.comments else "(no comments)"
    selected := if selected_techs s r ≠ []
      then String.intercalate ", " (selected_techs s r)
      else "(none selected)" }

/-- Lines 227-242 and 274: the summary table rows; `summary_csv` is this
same dataframe rendered to CSV. -/
def results_for_display (s : PyState) : List SummaryRow :=
  s.evaluations.map (summaryRow s)

/-- One row of the detailed CSV (lines 250-260): fixed columns then one
cell per criterion, a check mark when selected, else the empty string. -/
structure CsvRow where
  evaluator : String
  timestamp : String
  technology : String
  comments : String
  crits : List (String × String)
deriving DecidableEq, Repr

def detailRow (s : PyState) (r : PyRecord) (tech : String) : CsvRow :=
  { evaluator := r.evaluator_name
    timestamp := r.timestamp
    technology := tech
    comments := r.comments
    crits := CRITERIA.map (fun crit =>
      (crit, if recGet s r tech crit then "✓" else "")) }

/-- Lines 249-260: for each evaluation, one row per technology. -/
def csv_rows (s : PyState) : List CsvRow :=
  s.evaluations.flatMap (fun r => TECHNOLOGIES.map (detailRow s r))

/-- The results section (lines 160-284): computed only on a non-empty
store (`if st.session_state.evaluations:`); otherwise the "no data yet"
info message replaces it. -/
inductive ResultsView where
  | results (scores : List (String × List ℚ)) (table : List SummaryRow)
      (csv : List CsvRow)
  | noData
deriving DecidableEq

def render_results (s : PyState) : ResultsView :=
  if s.evaluations ≠ [] then
    ResultsView.results (tech_scores s) (results_for_display s) (csv_rows s)
  else ResultsView.noData

/-- Addresses referenced by an outer dict. -/
def addrs (sel : List (String × Nat)) : List Nat := sel.map Prod.snd

/-- The allocation invariant: every referenced cell was allocated
(address below `nextAddr`), and the live grid shares no cell with any
stored record. -/
structure Inv (s : PyState) : Prop where
  grid_lt : ∀ a ∈ addrs s.current_selections, a < s.nextAddr
  rec_lt : ∀ r ∈ s.evaluations, ∀ a ∈ addrs r.selections, a < s.nextAddr
  disj : ∀ a ∈ addrs s.current_selections, ∀ r ∈ s.evaluations, a ∉ addrs r.selections

/-! ### Allocation lemmas -/

theorem alloc_heap_below (ts : List String) (h : Nat → InnerDict) (n a : Nat)
    (ha : a < n) : (allocCells ts h n).1 a = h a := by
  induction ts generalizing h n with
  | nil => rfl
  | cons t ts ih =>
    have h1 : (allocCells (t :: ts) h n).1 a
        = (allocCells ts (fun a2 => if a2 = n then freshRow else h a2) (n + 1)).1 a := rfl
    rw [h1, ih _ _ (Nat.lt_succ_of_lt ha)]
    simp [Nat.ne_of_lt ha]

theorem alloc_next_eq (ts : List String) (h : Nat → InnerDict) (n : Nat) :
    (allocCells ts h n).2.1 = n + ts.length := by
  induction ts generalizing h n with
  | nil => rfl
  | cons t ts ih =>
    have h1 : (allocCells (t :: ts) h n).2.1
        = (allocCells ts (fun a2 => if a2 = n then freshRow else h a2) (n + 1)).2.1 := rfl
    rw [h1, ih, List.length_cons]
    omega

theorem alloc_addr_mem (ts : List String) (h : Nat → InnerDict) (n : Nat) :
    ∀ p ∈ (allocCells ts h n).2.2, n ≤ p.2 ∧ p.2 < n + ts.length := by
  induction ts generalizing h n with
  | nil => intro p hp; cases hp
  | cons t ts ih =>
    intro p hp
    have h1 : (allocCells (t :: ts) h n).2.2
        = (t, n) :: (allocCells ts (fun a2 => if a2 = n then freshRow else h a2) (n + 1)).2.2 := rfl
    rw [h1] at hp
    rcases List.mem_cons.mp hp with h2 | h2
    · subst h2
      refine ⟨Nat.le_refl _, ?_⟩
      rw [List.length_cons]
      omega
    · have h3 := ih _ _ p h2
      rw [List.length_cons]
      omega

/-! ### Association-list lookup lemmas -/

theorem lookup_cons {β : Type} (k : String) (v : β) (l : List (String × β))
    (t : String) :
    List.lookup t ((k, v) :: l) = if t = k then some v else List.lookup t l := by
  by_cases he : t = k
  · subst he
    simp [List.lookup]
  · have hb : (t == k) = false := beq_eq_false_iff_ne.mpr he
    simp [List.lookup, hb, he]

theorem alloc_lookup_fresh (ts : List String) (h : Nat → InnerDict) (n : Nat)
    (t : String) (ht : t ∈ ts) :
    ∃ a, ((allocCells ts h n).2.2).lookup t = some a
      ∧ (allocCells ts h n).1 a = freshRow := by
  induction ts generalizing h n with
  | nil => cases ht
  | cons t2 ts ih =>
    have h1 : (allocCells (t2 :: ts) h n).2.2
        = (t2, n) :: (allocCells ts (fun a2 => if a2 = n then freshRow else h a2) (n + 1)).2.2 := rfl
    have h2 : (allocCells (t2 :: ts) h n).1
        = (allocCells ts (fun a2 => if a2 = n then freshRow else h a2) (n + 1)).1 := rfl
    by_cases he : t = t2
    · refine ⟨n, ?_, ?_⟩
      · rw [h1, lookup_cons, if_pos he]
      · rw [h2, alloc_heap_below _ _ _ _ (Nat.lt_succ_self n)]
        simp
    · have ht2 : t ∈ ts := by
        rcases List.mem_cons.mp ht with h3 | h3
        · exact absurd h3 he
        · exact h3
      obtain ⟨a, ha1, ha2⟩ := ih _ (n + 1) ht2
      refine ⟨a, ?_, ?_⟩
      · rw [h1, lookup_cons, if_neg he]
        exact ha1
      · rw [h2]
        exact ha2

theorem lookup_map_pair {β : Type} (l : List String) (f : String → β) (t : String)
    (ht : t ∈ l) : (l.map (fun x => (x, f x))).lookup t = some (f t) := by
  induction l with
  | nil => cases ht
  | cons x xs ih =>
    rw [List.map_cons, lookup_cons]
    by_cases he : t = x
    · rw [if_pos he, he]
    · have ht2 : t ∈ xs := by
        rcases List.mem_cons.mp ht with h3 | h3
        · exact absurd h3 he
        · exact h3
      rw [if_neg he]
      exact ih ht2

theorem lookup_mem_addrs (l : List (String × Nat)) (t : String) (g : Nat)
    (h : l.lookup t = some g) : g ∈ addrs l := by
  induction l with
  | nil => cases h
  | cons p ps ih =>
    rw [show p = (p.1, p.2) from rfl, lookup_cons] at h
    by_cases he : t = p.1
    · rw [if_pos he] at h
      have hg : p.2 = g := Option.some.inj h
      simp [addrs]
      left
      omega
    · rw [if_neg he] at h
      have := ih h
      simp [addrs] at this ⊢
      tauto

theorem mem_addrs_iff (l : List (String × Nat)) (a : Nat) :
    a ∈ addrs l ↔ ∃ p ∈ l, p.2 = a := by
  simp [addrs, List.mem_map]

/-! ### Shape lemmas for the operations -/

theorem toggle_fields (s : PyState) (t c : String) (b : Bool) :
    (toggle s t c b).current_selections = s.current_selections
    ∧ (toggle s t c b).evaluations = s.evaluations
    ∧ (toggle s t c b).nextAddr = s.nextAddr
    ∧ (toggle s t c b).evaluator_input = s.evaluator_input
    ∧ (toggle s t c b).comments_area = s.comments_area := by
  unfold toggle
  split
  · exact ⟨rfl, rfl, rfl, rfl, rfl⟩
  · exact ⟨rfl, rfl, rfl, rfl, rfl⟩

theorem toggle_heap_frame (s : PyState) (t c : String) (b : Bool) (a : Nat)
    (ha : a ∉ addrs s.current_selections) : (toggle s t c b).heap a = s.heap a := by
  unfold toggle
  split
  · rfl
  next g hg =>
    have hga : g ∈ addrs s.current_selections := lookup_mem_addrs _ _ _ hg
    have hne : a ≠ g := fun he => ha (he ▸ hga)
    show (if a = g then _ else s.heap a) = s.heap a
    rw [if_neg hne]

theorem submit_neg (s : PyState) (now : String)
    (h : pyStrip s.evaluator_input = "") : submitClick s now = s := by
  unfold submitClick
  rw [if_pos h]

theorem submit_pos (s : PyState) (now : String)
    (h : pyStrip s.evaluator_input ≠ "") :
    (submitClick s now).evaluations = s.evaluations
      ++ [⟨pyStrip s.evaluator_input, now, s.current_selections,
           pyStrip s.comments_area⟩]
    ∧ (submitClick s now).heap = (allocCells TECHNOLOGIES s.heap s.nextAddr).1
    ∧ (submitClick s now).nextAddr
        = (allocCells TECHNOLOGIES s.heap s.nextAddr).2.1
    ∧ (submitClick s now).current_selections
        = (allocCells TECHNOLOGIES s.heap s.nextAddr).2.2
    ∧ (submitClick s now).comments_area = s.comments_area
    ∧ (submitClick s now).current_comment = ""
    ∧ (submitClick s now).evaluator_input = s.evaluator_input := by
  unfold submitClick
  rw [if_neg h]
  exact ⟨rfl, rfl, rfl, rfl, rfl, rfl, rfl⟩

theorem step_evals (s : PyState) (op : Op) :
    ∃ new, (step s op).evaluations = s.evaluations ++ new := by
  cases op with
  | toggle t c b =>
    refine ⟨[], ?_⟩
    show (toggle s t c b).evaluations = s.evaluations ++ []
    rw [(toggle_fields s t c b).2.1, List.append_nil]
  | submit now =>
    by_cases h : pyStrip s.evaluator_input = ""
    · refine ⟨[], ?_⟩
      show (submitClick s now).evaluations = s.evaluations ++ []
      rw [submit_neg s now h, List.append_nil]
    · refine ⟨[⟨pyStrip s.evaluator_input, now, s.current_selections,
        pyStrip s.comments_area⟩], ?_⟩
      exact (submit_pos s now h).1
  | setComment c => exact ⟨[], (List.append_nil _).symm⟩
  | setName n => exact ⟨[], (List.append_nil _).symm⟩

theorem run_evals (ops : List Op) (s : PyState) :
    ∃ new, (run s ops).evaluations = s.evaluations ++ new := by
  induction ops generalizing s with
  | nil => exact ⟨[], (List.append_nil _).symm⟩
  | cons op ops ih =>
    obtain ⟨n1, h1⟩ := step_evals s op
    obtain ⟨n2, h2⟩ := ih (step s op)
    exact ⟨n1 ++ n2, by
      rw [show run s (op :: ops) = run (step s op) ops from rfl, h2, h1,
        List.append_assoc]⟩

/-! ### The invariant is preserved -/

theorem init_inv : Inv initState :=
  ⟨by decide, by decide, by decide⟩

theorem step_inv (s : PyState) (op : Op) (hs : Inv s) : Inv (step s op) := by
  cases op with
  | toggle t c b =>
    show Inv (toggle s t c b)
    obtain ⟨h1, h2, h3, _, _⟩ := toggle_fields s t c b
    refine ⟨?_, ?_, ?_⟩
    · rw [h1, h3]
      exact hs.grid_lt
    · rw [h2, h3]
      exact hs.rec_lt
    · rw [h1, h2]
      exact hs.disj
  | submit now =>
    show Inv (submitClick s now)
    by_cases h : pyStrip s.evaluator_input = ""
    · rw [submit_neg s now h]
      exact hs
    · obtain ⟨he, _, hn, hc, _, _, _⟩ := submit_pos s now h
      have hnext := alloc_next_eq TECHNOLOGIES s.heap s.nextAddr
      refine ⟨?_, ?_, ?_⟩
      · rw [hn, hc]
        intro a ha
        obtain ⟨p, hp, hpa⟩ := (mem_addrs_iff _ _).mp ha
        have := alloc_addr_mem TECHNOLOGIES s.heap s.nextAddr p hp
        omega
      · rw [hn, he]
        intro r hr a ha
        rcases List.mem_append.mp hr with h2 | h2
        · have := hs.rec_lt r h2 a ha
          omega
        · have hr2 : r = ⟨pyStrip s.evaluator_input, now, s.current_selections,
              pyStrip s.comments_area⟩ := List.mem_singleton.mp h2
          have : a < s.nextAddr := hs.grid_lt a (by rw [hr2] at ha; exact ha)
          omega
      · rw [hc, he]
        intro a ha r hr hcon
        obtain ⟨p, hp, hpa⟩ := (mem_addrs_iff _ _).mp ha
        have hge := alloc_addr_mem TECHNOLOGIES s.heap s.nextAddr p hp
        rcases List.mem_append.mp hr with h2 | h2
        · have := hs.rec_lt r h2 a hcon
          omega
        · have hr2 : r = ⟨pyStrip s.evaluator_input, now, s.current_selections,
              pyStrip s.comments_area⟩ := List.mem_singleton.mp h2
          have : a < s.nextAddr := hs.grid_lt a (by rw [hr2] at hcon; exact hcon)
          omega
  | setComment c => exact ⟨hs.grid_lt, hs.rec_lt, hs.disj⟩
  | setName n => exact ⟨hs.grid_lt, hs.rec_lt, hs.disj⟩

theorem run_inv (ops : List Op) (s : PyState) (hs : Inv s) : Inv (run s ops) := by
  induction ops generalizing s with
  | nil => exact hs
  | cons op ops ih => exact ih (step s op) (step_inv s op hs)

/-! ### Stored records' heap cells are never written again -/

theorem step_heap_frame (s : PyState) (op : Op) (hs : Inv s) (r : PyRecord)
    (hr : r ∈ s.evaluations) (a : Nat) (ha : a ∈ addrs r.selections) :
    (step s op).heap a = s.heap a := by
  cases op with
  | toggle t c b =>
    refine toggle_heap_frame s t c b a (fun hmem => ?_)
    exact hs.disj a hmem r hr ha
  | submit now =>
    show (submitClick s now).heap a = s.heap a
    by_cases h : pyStrip s.evaluator_input = ""
    · rw [submit_neg s now h]
    · rw [(submit_pos s now h).2.1]
      exact alloc_heap_below TECHNOLOGIES s.heap s.nextAddr a
        (hs.rec_lt r hr a ha)
  | setComment c => rfl
  | setName n => rfl

theorem run_heap_frame (ops : List Op) (s : PyState) (hs : Inv s) (r : PyRecord)
    (hr : r ∈ s.evaluations) (a : Nat) (ha : a ∈ addrs r.selections) :
    (run s ops).heap a = s.heap a := by
  induction ops generalizing s with
  | nil => rfl
  | cons op ops ih =>
    have hr2 : r ∈ (step s op).evaluations := by
      obtain ⟨n1, h1⟩ := step_evals s op
      rw [h1]
      exact List.mem_append_left _ hr
    rw [show run s (op :: ops) = run (step s op) ops from rfl,
      ih (step s op) (step_inv s op hs) hr2,
      step_heap_frame s op hs r hr a ha]

theorem freshRow_lookup (c : String) (hc : c ∈ CRITERIA) :
    freshRow.lookup c = some false :=
  lookup_map_pair CRITERIA (fun _ => false) c hc

/-! ## The claims -/

/-- C1: a stored record's selections are isolated from the live grid.
The `.copy()` on line 136 is shallow — the record shares the inner dicts
with the grid at the moment of submission — but the post-submit reset
(lines 144-147) rebinds the grid to freshly allocated dicts, so no later
operation (grid edit, further submit, text edits) can write a cell any
stored record references: the record's dereferenced matrix, and the record
itself, are unchanged by every later operation sequence. -/
theorem record_isolation (ops1 ops2 : List Op) (r : PyRecord)
    (hr : r ∈ (run initState ops1).evaluations) :
    readSel (run (run initState ops1) ops2).heap r.selections
      = readSel (run initState ops1).heap r.selections
    ∧ r ∈ (run (run initState ops1) ops2).evaluations := by
  have hinv : Inv (run initState ops1) := run_inv ops1 initState init_inv
  constructor
  · unfold readSel
    apply List.map_congr_left
    intro p hp
    have ha : p.2 ∈ addrs r.selections := (mem_addrs_iff _ _).mpr ⟨p, hp, rfl⟩
    rw [run_heap_frame ops2 (run initState ops1) hinv r hr p.2 ha]
  · obtain ⟨n2, h2⟩ := run_evals ops2 (run initState ops1)
    rw [h2]
    exact List.mem_append_left _ hr

def w1ops : List Op :=
  [Op.setName "Alice", Op.toggle "Tech A" "Criteria 1" true,
   Op.submit "2024-01-01T00:00:00"]

def w1muts : List Op :=
  [Op.toggle "Tech A" "Criteria 1" true, Op.toggle "Tech B" "Criteria 2" true,
   Op.setComment "later"]

def w1rec : PyRecord :=
  ⟨"Alice", "2024-01-01T00:00:00",
   [("Tech A", 0), ("Tech B", 1), ("Tech C", 2), ("Tech D", 3), ("Tech E", 4)],
   ""⟩

/-- C1 witness: one concrete submission followed by concrete grid edits. -/
theorem record_isolation_witness :
    readSel (run (run initState w1ops) w1muts).heap w1rec.selections
      = readSel (run initState w1ops).heap w1rec.selections
    ∧ w1rec ∈ (run (run initState w1ops) w1muts).evaluations :=
  record_isolation w1ops w1muts w1rec (by decide)

/-- C2: submitting with a blank (after strip) evaluator name changes
nothing at all — the handler only shows an error (lines 129-130) — so in
particular the store length is unchanged. -/
theorem blank_name_rejected (s : PyState) (now : String)
    (h : pyStrip s.evaluator_input = "") :
    step s (Op.submit now) = s
    ∧ (step s (Op.submit now)).evaluations.length = s.evaluations.length := by
  have h1 : step s (Op.submit now) = s := submit_neg s now h
  exact ⟨h1, by rw [h1]⟩

def w2state : PyState :=
  run initState [Op.setName "   ", Op.setComment "hello",
    Op.toggle "Tech A" "Criteria 1" true]

/-- C2 witness: a concrete state whose name box holds only whitespace. -/
theorem blank_name_rejected_witness :
    step w2state (Op.submit "t") = w2state
    ∧ (step w2state (Op.submit "t")).evaluations.length
        = w2state.evaluations.length :=
  blank_name_rejected w2state "t" (by decide)

/-- C3: a submit with a non-blank name appends exactly one record —
carrying the stripped name, the given second-precision timestamp string,
the submitted selection matrix (the record's snapshot dereferences, in the
new state, to exactly the matrix the live grid showed at submission), and
the stripped comment — and the live grid is reset to all-false. -/
theorem valid_submit_appends (s : PyState) (now : String) (hs : Inv s)
    (h : pyStrip s.evaluator_input ≠ "") :
    (step s (Op.submit now)).evaluations
      = s.evaluations ++ [⟨pyStrip s.evaluator_input, now,
          s.current_selections, pyStrip s.comments_area⟩]
    ∧ readSel (step s (Op.submit now)).heap s.current_selections
        = readSel s.heap s.current_selections
    ∧ ∀ t ∈ TECHNOLOGIES, ∀ c ∈ CRITERIA,
        gridGet (step s (Op.submit now)) t c = false := by
  obtain ⟨he, hh, hn, hc, _, _, _⟩ := submit_pos s now h
  refine ⟨he, ?_, ?_⟩
  · show readSel (submitClick s now).heap s.current_selections
      = readSel s.heap s.current_selections
    unfold readSel
    apply List.map_congr_left
    intro p hp
    have hlt : p.2 < s.nextAddr :=
      hs.grid_lt p.2 ((mem_addrs_iff _ _).mpr ⟨p, hp, rfl⟩)
    rw [hh, alloc_heap_below TECHNOLOGIES s.heap s.nextAddr p.2 hlt]
  · intro t ht c hcr
    show gridGet (submitClick s now) t c = false
    obtain ⟨a, ha1, ha2⟩ :=
      alloc_lookup_fresh TECHNOLOGIES s.heap s.nextAddr t ht
    unfold gridGet
    rw [hc, ha1]
    show (((submitClick s now).heap a).lookup c).getD false = false
    rw [hh, ha2, freshRow_lookup c hcr]
    rfl

def w3state : PyState :=
  run initState [Op.setName " Bob ", Op.setComment " looks good ",
    Op.toggle "Tech B" "Criteria 2" true]

/-- C3 witness: a concrete valid submission. -/
theorem valid_submit_appends_witness :
    (step w3state (Op.submit "2024-01-01T00:00:01")).evaluations
      = w3state.evaluations ++ [⟨pyStrip w3state.evaluator_input,
          "2024-01-01T00:00:01", w3state.current_selections,
          pyStrip w3state.comments_area⟩]
    ∧ readSel (step w3state (Op.submit "2024-01-01T00:00:01")).heap
          w3state.current_selections
        = readSel w3state.heap w3state.current_selections
    ∧ ∀ t ∈ TECHNOLOGIES, ∀ c ∈ CRITERIA,
        gridGet (step w3state (Op.submit "2024-01-01T00:00:01")) t c = false :=
  valid_submit_appends w3state "2024-01-01T00:00:01"
    (run_inv _ initState init_inv) (by decide)

/-- C8: the store is append-only — every operation sequence only appends
records (line 141 is the sole mutation of `evaluations`), so earlier
contents and their order are preserved and the length never decreases. -/
theorem store_append_only (s : PyState) (ops : List Op) :
    ∃ new, (run s ops).evaluations = s.evaluations ++ new
      ∧ s.evaluations.length ≤ (run s ops).evaluations.length := by
  obtain ⟨new, h⟩ := run_evals ops s
  refine ⟨new, h, ?_⟩
  rw [h, List.length_append]
  omega

/-- C4: the post-submit reset writes `""` to session key `current_comment`
(line 148), but the comment widget — whose value `comment_text` the submit
handler reads — is bound to key `comments_area` (line 118), which is never
cleared.  Concretely: after submitting with comment "good fit" and
clicking submit again without retyping, the second stored record again
carries "good fit", while the claim requires the consumed comment to be
empty.  `current_comment` did become `""`, confirming the write went to a
key nothing reads. -/
theorem comment_not_cleared :
    (run initState [Op.setName "Alice", Op.setComment "good fit",
        Op.submit "t1", Op.submit "t2"]).evaluations.map PyRecord.comments
      = ["good fit", "good fit"]
    ∧ (run initState [Op.setName "Alice", Op.setComment "good fit",
        Op.submit "t1"]).comments_area = "good fit"
    ∧ (run initState [Op.setName "Alice", Op.setComment "good fit",
        Op.submit "t1"]).current_comment = "" := by
  refine ⟨by decide, by decide, by decide⟩

theorem countSel_le (s : PyState) (t c : String) :
    countSel s t c ≤ s.evaluations.length :=
  List.length_filter_le _ _

/-- C5: on a non-empty store, the aggregator maps each technology to the
list of percentages in the fixed criteria order; the entry for a
(technology, criterion) pair equals `100 * K / N` in exact rational
arithmetic (`K` the count of records selecting the pair, `N` the store
length), and every entry lies in `[0, 100]`. -/
theorem scores_formula (s : PyState) (t c : String)
    (hne : s.evaluations ≠ []) (ht : t ∈ TECHNOLOGIES) (_hc : c ∈ CRITERIA) :
    (tech_scores s).lookup t
      = some (CRITERIA.map (fun c2 =>
          (100 * (countSel s t c2 : ℚ)) / (s.evaluations.length : ℚ)))
    ∧ 0 ≤ ((countSel s t c : ℚ) / (s.evaluations.length : ℚ)) * 100
    ∧ ((countSel s t c : ℚ) / (s.evaluations.length : ℚ)) * 100 ≤ 100 := by
  have hN0 : s.evaluations.length ≠ 0 :=
    fun h0 => hne (List.length_eq_zero.mp h0)
  have hN : (0 : ℚ) < (s.evaluations.length : ℚ) := by
    exact_mod_cast Nat.pos_of_ne_zero hN0
  refine ⟨?_, ?_, ?_⟩
  · unfold tech_scores
    rw [lookup_map_pair TECHNOLOGIES
      (fun t2 => CRITERIA.map (fun c2 =>
        ((countSel s t2 c2 : ℚ) / (s.evaluations.length : ℚ)) * 100)) t ht]
    congr 1
    apply List.map_congr_left
    intro c2 _
    ring
  · apply mul_nonneg
    · exact div_nonneg (Nat.cast_nonneg _) (le_of_lt hN)
    · norm_num
  · have h1 : (countSel s t c : ℚ) / (s.evaluations.length : ℚ) ≤ 1 :=
      (div_le_one hN).mpr (by exact_mod_cast countSel_le s t c)
    linarith

def w5state : PyState :=
  run initState [Op.setName "A", Op.toggle "Tech A" "Criteria 1" true,
    Op.submit "t1", Op.setName "B", Op.submit "t2"]

/-- C5 witness: two concrete submissions, first one selecting
(Tech A, Criteria 1). -/
theorem scores_formula_witness :
    (tech_scores w5state).lookup "Tech A"
      = some (CRITERIA.map (fun c2 =>
          (100 * (countSel w5state "Tech A" c2 : ℚ))
            / (w5state.evaluations.length : ℚ)))
    ∧ 0 ≤ ((countSel w5state "Tech A" "Criteria 1" : ℚ)
          / (w5state.evaluations.length : ℚ)) * 100
    ∧ ((countSel w5state "Tech A" "Criteria 1" : ℚ)
          / (w5state.evaluations.length : ℚ)) * 100 ≤ 100 :=
  scores_formula w5state "Tech A" "Criteria 1" (by decide) (by decide)
    (by decide)

theorem flatMap_const_length {α β : Type} (l : List α) (f : α → List β)
    (k : Nat) (hf : ∀ x, (f x).length = k) :
    (l.flatMap f).length = l.length * k := by
  induction l with
  | nil => simp
  | cons x xs ih =>
    simp only [List.flatMap_cons, List.length_append, List.length_cons, hf, ih]
    ring

/-- C6: the detailed CSV has exactly one row per (evaluation, technology)
pair — `evaluations × technologies` rows — each carrying the record's
evaluator, timestamp, the technology, the verbatim comment, and one cell
per criterion holding a check mark exactly when that record selected the
pair, else the empty string. -/
theorem detailed_export_shape (s : PyState) :
    (csv_rows s).length = s.evaluations.length * TECHNOLOGIES.length
    ∧ (∀ row : CsvRow, row ∈ csv_rows s ↔
        ∃ r, r ∈ s.evaluations ∧ ∃ t, t ∈ TECHNOLOGIES ∧ row = detailRow s r t)
    ∧ ∀ (r : PyRecord) (t c : String), c ∈ CRITERIA →
        ((detailRow s r t).crits).lookup c
          = some (if recGet s r t c then "✓" else "") := by
  refine ⟨?_, ?_, ?_⟩
  · exact flatMap_const_length s.evaluations _ TECHNOLOGIES.length
      (fun r => List.length_map _ _)
  · intro row
    simp only [csv_rows, List.mem_flatMap, List.mem_map]
    constructor
    · rintro ⟨r, hr, t, ht, hrow⟩
      exact ⟨r, hr, t, ht, hrow.symm⟩
    · rintro ⟨r, hr, t, ht, hrow⟩
      exact ⟨r, hr, t, ht, hrow.symm⟩
  · intro r t c hcr
    exact lookup_map_pair CRITERIA
      (fun c2 => if recGet s r t c2 then "✓" else "") c hcr

/-- C7: the summary table (and the summary CSV, which is this same table
rendered) has one row per evaluation; its Selected Technologies field is
the comma-joined list of exactly the technologies with at least one true
selection in that record, or the literal "(none selected)" when there is
no such technology. -/
theorem summary_rows_shape (s : PyState) :
    (results_for_display s).length = s.evaluations.length
    ∧ (∀ row : SummaryRow, row ∈ results_for_display s ↔
        ∃ r, r ∈ s.evaluations ∧ row = summaryRow s r)
    ∧ (∀ (r : PyRecord) (t : String),
        t ∈ selected_techs s r
          ↔ t ∈ TECHNOLOGIES ∧ (recRow s r t).any (fun p => p.2) = true)
    ∧ ∀ r : PyRecord,
        (selected_techs s r ≠ [] →
          (summaryRow s r).selected
            = String.intercalate ", " (selected_techs s r))
        ∧ (selected_techs s r = [] →
          (summaryRow s r).selected = "(none selected)")
        ∧ (selected_techs s r = []
            ↔ ∀ t ∈ TECHNOLOGIES, (recRow s r t).any (fun p => p.2) = false) := by
  refine ⟨List.length_map _ _, ?_, ?_, ?_⟩
  · intro row
    simp only [results_for_display, List.mem_map]
    constructor
    · rintro ⟨r, hr, hrow⟩
      exact ⟨r, hr, hrow.symm⟩
    · rintro ⟨r, hr, hrow⟩
      exact ⟨r, hr, hrow.symm⟩
  · intro r t
    simp [selected_techs, List.mem_filter]
  · intro r
    refine ⟨?_, ?_, ?_⟩
    · intro hne
      show (if selected_techs s r ≠ [] then _ else _) = _
      rw [if_pos hne]
    · intro hnil
      show (if selected_techs s r ≠ [] then _ else _) = _
      rw [if_neg (by simp [hnil])]
    · unfold selected_techs
      rw [List.filter_eq_nil_iff]
      simp

/-- C9: the whole results section is guarded by
`if st.session_state.evaluations:` (line 160): with an empty store it
renders the "no data yet" info state and the aggregation is never reached,
so the score computation — whose divisor is the store length — only ever
runs with a strictly positive divisor. -/
theorem empty_store_guard (s : PyState) :
    (render_results s = ResultsView.noData ↔ s.evaluations = [])
    ∧ (s.evaluations ≠ [] →
        render_results s = ResultsView.results (tech_scores s)
          (results_for_display s) (csv_rows s)
        ∧ 0 < s.evaluations.length) := by
  unfold render_results
  by_cases h : s.evaluations = []
  · rw [if_neg (by simp [h])]
    simp [h]
  · rw [if_pos h]
    constructor
    · simp [h]
    · intro _
      exact ⟨rfl, List.length_pos.mpr h⟩

/-- C10: the summary table (hence the summary CSV built from it) replaces
an empty stored comment with the literal "(no comments)", so its Comments
field is never empty, while the detailed CSV emits the stored comment
verbatim. -/
theorem summary_comments_placeholder (s : PyState) (r : PyRecord) (t : String) :
    (summaryRow s r).comments
      = (if r.comments = "" then "(no comments)" else r.comments)
    ∧ (summaryRow s r).comments ≠ ""
    ∧ (detailRow s r t).comments = r.comments := by
  refine ⟨?_, ?_, rfl⟩
  · show (if r.comments ≠ "" then r.comments else "(no comments)") = _
    by_cases h : r.comments = ""
    · rw [if_neg (by simp [h]), if_pos h]
    · rw [if_pos h, if_neg h]
  · show (if r.comments ≠ "" then r.comments else "(no comments)") ≠ ""
    by_cases h : r.comments = ""
    · rw [if_neg (by simp [h])]
      decide
    · rw [if_pos h]
      exact h

end TechSelector
